import Mathlib

/-
Verification of the zendia framework's repository / audit / history / cache
pipeline.  The Go source is shallowly embedded: Go maps become association
lists, the Mongo collection becomes a list of documents, time instants are
integers, UUIDs are parsed from canonical 36-character strings into naturals,
and a Go panic (uuid.MustParse) is the explicit result constructor `crash`.
-/

namespace Zendia

/-- Filter / field values, the scalar fragment of Go's interface{} that the
claims quantify over (nil, string, number, bool). -/
inductive FValue where
  | vNull
  | vStr (s : String)
  | vInt (n : Int)
  | vBool (b : Bool)
  deriving DecidableEq, Repr

/-- Error taxonomy of APIError (errors.go). -/
inductive ErrorType where
  | validationE
  | notFoundE
  | unauthorizedE
  | internalE
  | badRequestE
  deriving DecidableEq, Repr

/-- APIError: type, message, HTTP code (errors.go). -/
structure APIError where
  etype : ErrorType
  message : String
  code : Nat
  deriving DecidableEq, Repr

def NewValidationError (m : String) : APIError := ⟨ErrorType.validationE, m, 400⟩
def NewNotFoundError (m : String) : APIError := ⟨ErrorType.notFoundE, m, 404⟩
def NewUnauthorizedError (m : String) : APIError := ⟨ErrorType.unauthorizedE, m, 401⟩
def NewInternalError (m : String) : APIError := ⟨ErrorType.internalE, m, 500⟩
def NewBadRequestError (m : String) : APIError := ⟨ErrorType.badRequestE, m, 400⟩

/-- A 400-coded error (the spec's Validation kind covers both the
ValidationErrorType and BadRequestErrorType constructors). -/
def APIError.isValidationKind (e : APIError) : Bool := e.code == 400

/-- List-of-chars prefix test (strings.HasPrefix on rune lists). -/
def isPrefList (pat s : List Char) : Bool :=
  match pat, s with
  | [], _ => true
  | _ :: _, [] => false
  | a :: ps, b :: ss => a == b && isPrefList ps ss

/-- List-of-chars substring test. -/
def isInfList (pat s : List Char) : Bool :=
  match s with
  | [] => pat.isEmpty
  | _ :: ss => isPrefList pat s || isInfList pat ss

/-- strings.Contains of Go: does s contain pat as a substring. -/
def strContains (s pat : String) : Bool :=
  isInfList pat.toList s.toList

/-- ASCII lower-casing of one character (the fragment of strings.ToLower
the sanitizer's patterns exercise). -/
def charToLower (c : Char) : Char :=
  if 'A' ≤ c && c ≤ 'Z' then Char.ofNat (c.toNat + 32) else c

/-- strings.ToLower on the character-list model of strings. -/
def strToLower (s : String) : String :=
  ⟨s.data.map charToLower⟩

/-- allowedFilterKeys of mongo_repository.go: safe field whitelist. -/
def allowedFilterKeys : List String :=
  ["_id", "tenant_id", "name", "email", "status", "active",
   "created.set_at", "created.by_name", "created.by_id", "created.active",
   "updated.set_at", "updated.by_name", "updated.by_id",
   "deleted.set_at", "deleted.by_name", "deleted.by_id", "deleted.active"]

/-- First character class of the validPattern regex: [a-zA-Z_]. -/
def isAlphaUnd (c : Char) : Bool := c.isAlpha || c == '_'

/-- Later character class of the validPattern regex: [a-zA-Z0-9_]. -/
def isAlnumUnd (c : Char) : Bool := c.isAlpha || c.isDigit || c == '_'

/-- The anchored regex of isValidFieldName: one [a-zA-Z_] character followed
by at most 50 [a-zA-Z0-9_] characters. -/
def matchesValidPattern (s : String) : Bool :=
  match s.toList with
  | [] => false
  | c :: cs => isAlphaUnd c && cs.length ≤ 50 && cs.all isAlnumUnd

/-- dangerousPatterns checked against field names in isValidFieldName. -/
def fieldDangerous : List String :=
  ["$", ".", "javascript", "eval", "function", "where"]

/-- isValidFieldName of mongo_repository.go: whitelist, else conservative
pattern plus blocked substrings on the lower-cased name. -/
def isValidFieldName (fieldName : String) : Bool :=
  if allowedFilterKeys.contains fieldName then true
  else if !matchesValidPattern fieldName then false
  else !(fieldDangerous.any (fun pat => strContains (strToLower fieldName) pat))

/-- dangerousPatterns checked against string filter values. -/
def valueDangerous : List String :=
  ["$", "javascript:", "eval(", "function(", "where"]

/-- sanitizeFilterValue of mongo_repository.go on the scalar value fragment:
long or dangerous strings are rejected, other scalars pass through. -/
def sanitizeFilterValue (v : FValue) : Except String FValue :=
  match v with
  | FValue.vNull => Except.ok FValue.vNull
  | FValue.vStr s =>
      if s.length > 1000 then Except.error "string value too long"
      else if valueDangerous.any (fun pat => strContains (strToLower s) pat) then
        Except.error "dangerous pattern detected"
      else Except.ok (FValue.vStr s)
  | FValue.vInt n => Except.ok (FValue.vInt n)
  | FValue.vBool b => Except.ok (FValue.vBool b)

/-- Filter maps are embedded as association lists. -/
abbrev Filters := List (String × FValue)

/-- The per-entry loop body of sanitizeFilters: invalid names and invalid
values are silently dropped, everything else is kept. -/
def sanitizeEntries (fs : Filters) : Filters :=
  match fs with
  | [] => []
  | (k, v) :: rest =>
      if !isValidFieldName k then sanitizeEntries rest
      else
        match sanitizeFilterValue v with
        | Except.error _ => sanitizeEntries rest
        | Except.ok v2 => (k, v2) :: sanitizeEntries rest

/-- sanitizeFilters of mongo_repository.go: more than 20 entries fail the
whole call, otherwise entries are individually sanitized or dropped. -/
def sanitizeFilters (fs : Filters) : Except String Filters :=
  if fs.length > 20 then Except.error "too many filters provided"
  else Except.ok (sanitizeEntries fs)

/-- The sanitization gate shared by the store's read paths (GetFirst/GetAll/
GetAllSkipTake): a sanitizeFilters failure becomes a 400 BadRequest. -/
def mongoFilterGate (fs : Filters) : Except APIError Filters :=
  match sanitizeFilters fs with
  | Except.error _ => Except.error (NewBadRequestError "Invalid filter parameters")
  | Except.ok sfs => Except.ok sfs

/-! ## UUIDs, tenant context, audit data model -/

/-- Hexadecimal digit test (the character classes accepted by uuid.Parse). -/
def isHexDigit (c : Char) : Bool :=
  c.isDigit || ('a' ≤ c && c ≤ 'f') || ('A' ≤ c && c ≤ 'F')

/-- Value of one hexadecimal digit. -/
def hexVal (c : Char) : Nat :=
  if c.isDigit then c.toNat - 48
  else if 'a' ≤ c && c ≤ 'f' then c.toNat - 87
  else c.toNat - 55

/-- Canonical 8-4-4-4-12 UUID shape check. -/
def uuidFormatOk (s : String) : Bool :=
  let cs := s.toList
  cs.length == 36 &&
  (List.range 36).all (fun i =>
    if i == 8 || i == 13 || i == 18 || i == 23 then cs.getD i ' ' == '-'
    else isHexDigit (cs.getD i ' '))

/-- uuid.Parse restricted to the canonical textual form; the 128-bit value is
embedded as a natural number (uuid.Nil is 0). -/
def parseUUID (s : String) : Option Nat :=
  if uuidFormatOk s then
    some ((s.toList.filter (fun c => c != '-')).foldl (fun a c => a * 16 + hexVal c) 0)
  else none

/-- TenantInfo of tenant.go (the variant consumed by repository.go, which
also carries the actor display name). Timestamps are integers. -/
structure TenantInfo where
  tenantID : String
  userID : String
  userName : String
  actionAt : Int
  deriving DecidableEq, Repr

/-- AuditInfo: set_at, by_name, by_id, active (the shape used by
mongo_repository.go, whose Delete sets Active explicitly). -/
structure AuditInfo where
  setAt : Int
  byName : String
  byID : Nat
  active : Bool
  deriving DecidableEq, Repr

/-- The representative rich auditable entity (implements both
MongoAuditableEntity and AuditableEntity): UUID id, tenant, one payload
field `name`, the three audit stamps and the active flag. -/
structure Entity where
  id : Nat
  tenantID : String
  name : String
  created : AuditInfo
  updated : AuditInfo
  deleted : Option AuditInfo
  active : Bool
  deriving DecidableEq, Repr

/-- Result of an embedded operation: Go panic (`crash`), error return, or
success. -/
inductive RRes (α : Type) where
  | crash : RRes α
  | fail (e : APIError) : RRes α
  | ok (a : α) : RRes α
  deriving DecidableEq, Repr

/-- uuid.MustParse applied to the context's user id: the Go code leaves the
id at uuid.Nil when the context value is empty and panics on a non-empty
string that does not parse. -/
def userIDFor (ctx : TenantInfo) : Option Nat :=
  if ctx.userID == "" then some 0 else parseUUID ctx.userID

/-! ## Pagination (GetAllSkipTake) -/

/-- Body of the MemoryRepository.GetAllSkipTake range loop: `i` counts the
scanned entries, entries are appended while the result is shorter than
`take`; no parameter validation happens. -/
def memSkipTakeLoop {α : Type} (db : List α) (i : Int) (result : List α)
    (skip take : Int) : List α :=
  match db with
  | [] => result
  | e :: rest =>
      if i < skip then memSkipTakeLoop rest (i + 1) result skip take
      else if take ≤ (result.length : Int) then result
      else memSkipTakeLoop rest (i + 1) (result ++ [e]) skip take

/-- MemoryRepository.GetAllSkipTake of repository.go: ignores the filters,
runs the loop, and always succeeds — no parameter validation. -/
def memoryGetAllSkipTake {α : Type} (db : List α) (_fs : Filters) (skip take : Int) :
    Except APIError (List α) :=
  Except.ok (memSkipTakeLoop db 0 [] skip take)

/-! ## Bson filter maps and document matching -/

/-- Values appearing in the bson filter documents the store builds: null,
a `$ne nil` marker, a binary-encoded UUID, or a sanitized scalar. -/
inductive BVal where
  | bnull
  | bneNull
  | bbin (t : Nat)
  | bval (x : FValue)
  deriving DecidableEq, Repr

/-- bson.M assignment `m[k] = v` on the association-list embedding:
overwrites an existing key, otherwise appends. -/
def bsonSet (m : List (String × BVal)) (k : String) (v : BVal) :
    List (String × BVal) :=
  match m with
  | [] => [(k, v)]
  | (k2, v2) :: rest => if k2 == k then (k, v) :: rest else (k2, v2) :: bsonSet rest k v

/-- Matching of one filter key against a stored document for the fields the
embedded entity carries; keys the document does not have match only null. -/
def matchOne (e : Entity) (k : String) (v : BVal) : Bool :=
  if k == "_id" then v == BVal.bbin e.id
  else if k == "tenant_id" then
    match parseUUID e.tenantID with
    | some t => v == BVal.bbin t
    | none => false
  else if k == "deleted" then
    match e.deleted with
    | none => v == BVal.bnull
    | some _ => v == BVal.bneNull
  else if k == "name" then v == BVal.bval (FValue.vStr e.name)
  else if k == "active" then v == BVal.bval (FValue.vBool e.active)
  else v == BVal.bnull

/-- A document matches a bson filter when it matches every key. -/
def docMatches (e : Entity) (f : List (String × BVal)) : Bool :=
  f.all (fun kv => matchOne e kv.1 kv.2)

/-- Merge user filter values into a bson filter (`filter[k] = v` loop). -/
def mergeFilters (base : List (String × BVal)) (fs : Filters) :
    List (String × BVal) :=
  fs.foldl (fun m kv => bsonSet m kv.1 (BVal.bval kv.2)) base

/-- MongoRepository.GetAllSkipTake of mongo_repository.go: validates the
pagination bounds, sanitizes the filters, then delegates to the driver
(modelled as pure skip/limit list slicing). -/
def mongoGetAllSkipTake (db : List Entity) (fs : Filters) (skip take : Int) :
    Except APIError (List Entity) :=
  if skip < 0 || take < 0 || take > 1000 then
    Except.error (NewBadRequestError "Invalid pagination parameters")
  else
    match sanitizeFilters fs with
    | Except.error _ => Except.error (NewBadRequestError "Invalid filter parameters")
    | Except.ok sfs =>
        Except.ok (((db.filter (fun e => docMatches e (mergeFilters [] sfs))).drop
          skip.toNat).take take.toNat)

/-- Tenant scope injected by MongoAuditRepository list paths when the context
tenant parses; a parse failure is silently ignored on this path. -/
def auditBaseFilter (ctx : TenantInfo) : List (String × BVal) :=
  if ctx.tenantID == "" then [("deleted", BVal.bnull)]
  else
    match parseUUID ctx.tenantID with
    | none => [("deleted", BVal.bnull)]
    | some t => bsonSet [("deleted", BVal.bnull)] "tenant_id" (BVal.bbin t)

/-- MongoAuditRepository.GetAllSkipTake of mongo_repository.go: no pagination
validation, no filter sanitization; raw filters are merged over the
deleted/tenant base filter and the driver call is modelled as slicing. -/
def mongoAuditGetAllSkipTake (ctx : TenantInfo) (db : List Entity) (fs : Filters)
    (skip take : Int) : Except APIError (List Entity) :=
  Except.ok (((db.filter (fun e => docMatches e (mergeFilters (auditBaseFilter ctx) fs))).drop
    skip.toNat).take take.toNat)

/-! ## MongoAuditRepository CRUD over a list-of-documents collection -/

/-- The tenant part of the point-lookup filters: added only when the context
tenant is non-empty and parses (a parse failure adds no tenant filter). -/
def ctxTenantFilter (ctx : TenantInfo) (e : Entity) : Bool :=
  if ctx.tenantID == "" then true
  else
    match parseUUID ctx.tenantID with
    | none => true
    | some t => parseUUID e.tenantID == some t

/-- MongoAuditRepository.GetByID: FindOne on {_id, deleted: nil, tenant?}. -/
def mongoAuditGetByID (ctx : TenantInfo) (db : List Entity) (id : Nat) :
    RRes Entity :=
  match db.find? (fun e => e.id == id && e.deleted.isNone && ctxTenantFilter ctx e) with
  | none => RRes.fail (NewNotFoundError "Entity not found")
  | some e => RRes.ok e

/-- FindOneAndUpdate with a full-document $set: replaces the first document
matching the predicate, returning the new collection. -/
def replaceFirst (db : List Entity) (p : Entity → Bool) (newE : Entity) :
    Option (List Entity) :=
  match db with
  | [] => none
  | e :: rest =>
      if p e then some (newE :: rest)
      else (replaceFirst rest p newE).map (fun r => e :: r)

/-- MongoAuditRepository.Update: uuid.MustParse on a non-empty user id
(panic on a bad one), SetUpdated with the fresh stamp (its Active left at
the zero value) and SetTenantID, then FindOneAndUpdate on {_id, tenant?}
returning the After document. -/
def mongoAuditUpdate (ctx : TenantInfo) (db : List Entity) (id : Nat)
    (entity : Entity) : RRes (Entity × List Entity) :=
  match userIDFor ctx with
  | none => RRes.crash
  | some u =>
      match replaceFirst db (fun d => d.id == id && ctxTenantFilter ctx d)
          { entity with
            updated := ⟨ctx.actionAt, ctx.userName, u, false⟩,
            tenantID := ctx.tenantID } with
      | none => RRes.fail (NewNotFoundError "Entity not found")
      | some db2 =>
          RRes.ok ({ entity with
            updated := ⟨ctx.actionAt, ctx.userName, u, false⟩,
            tenantID := ctx.tenantID }, db2)

/-- MongoAuditRepository.Delete, rich-audit path: fetch through GetByID,
SetDeleted with Active false (uuid.MustParse on the user id), then delegate
to Update — a soft delete, not a physical removal. -/
def mongoAuditDelete (ctx : TenantInfo) (db : List Entity) (id : Nat) :
    RRes (List Entity) :=
  match mongoAuditGetByID ctx db id with
  | RRes.crash => RRes.crash
  | RRes.fail e => RRes.fail e
  | RRes.ok entity =>
      match userIDFor ctx with
      | none => RRes.crash
      | some u =>
          match mongoAuditUpdate ctx db id
              { entity with
                deleted := some ⟨ctx.actionAt, ctx.userName, u, false⟩ } with
          | RRes.crash => RRes.crash
          | RRes.fail e => RRes.fail e
          | RRes.ok (_, db2) => RRes.ok db2

/-- MongoAuditRepository.Create: assign a fresh id when the entity id is nil,
stamp Created = Updated (MustParse on the user id), stamp the tenant, insert.
No SetActive call happens on this path. -/
def mongoAuditCreate (ctx : TenantInfo) (db : List Entity) (newID : Nat)
    (e : Entity) : RRes (Entity × List Entity) :=
  let e1 := if e.id == 0 then { e with id := newID } else e
  match userIDFor ctx with
  | none => RRes.crash
  | some u =>
      let info : AuditInfo := ⟨ctx.actionAt, ctx.userName, u, false⟩
      let e2 := { e1 with created := info, updated := info, tenantID := ctx.tenantID }
      RRes.ok (e2, db ++ [e2])

/-- MongoAuditRepository.GetAll: {deleted: nil} base filter, tenant scope
(a non-empty tenant that fails to parse fails the call), sanitized user
filters merged on top, then Find. -/
def mongoAuditGetAll (ctx : TenantInfo) (db : List Entity) (fs : Filters) :
    RRes (List Entity) :=
  if ctx.tenantID == "" then
    match sanitizeFilters fs with
    | Except.error _ => RRes.fail (NewBadRequestError "Invalid filter parameters")
    | Except.ok sfs =>
        RRes.ok (db.filter (fun e =>
          docMatches e (mergeFilters [("deleted", BVal.bnull)] sfs)))
  else
    match parseUUID ctx.tenantID with
    | none => RRes.fail (NewBadRequestError "Invalid tenant ID")
    | some t =>
        match sanitizeFilters fs with
        | Except.error _ => RRes.fail (NewBadRequestError "Invalid filter parameters")
        | Except.ok sfs =>
            RRes.ok (db.filter (fun e => docMatches e
              (mergeFilters (bsonSet [("deleted", BVal.bnull)] "tenant_id" (BVal.bbin t)) sfs)))

/-- MongoAuditRepository.List delegates to GetAll. -/
def mongoAuditList (ctx : TenantInfo) (db : List Entity) (fs : Filters) :
    RRes (List Entity) :=
  mongoAuditGetAll ctx db fs

/-- MongoAuditRepository.GetAllIncludingDeleted: no deleted filter, tenant
scope when it parses (ignored otherwise), raw user filters merged. -/
def mongoAuditGetAllIncludingDeleted (ctx : TenantInfo) (db : List Entity)
    (fs : Filters) : RRes (List Entity) :=
  if ctx.tenantID == "" then
    RRes.ok (db.filter (fun e => docMatches e (mergeFilters [] fs)))
  else
    match parseUUID ctx.tenantID with
    | none => RRes.ok (db.filter (fun e => docMatches e (mergeFilters [] fs)))
    | some t =>
        RRes.ok (db.filter (fun e =>
          docMatches e (mergeFilters [("tenant_id", BVal.bbin t)] fs)))

/-! ## The generic Audit decorator (repository.go) -/

/-- AuditRepository.Create stamping: Created = Updated = {now, actor},
SetActive(true), SetTenantID; the memory base returns the entity unchanged,
so the decorated Create returns exactly the stamped entity. -/
def auditCreate (ctx : TenantInfo) (e : Entity) : RRes Entity :=
  match userIDFor ctx with
  | none => RRes.crash
  | some u =>
      let info : AuditInfo := ⟨ctx.actionAt, ctx.userName, u, false⟩
      RRes.ok { e with created := info, updated := info, active := true,
                       tenantID := ctx.tenantID }

/-! ## History decorator (history.go) -/

/-- shouldSkipField of history.go: audit, identity and tenant fields are
never diffed. -/
def shouldSkipField (fieldName : String) : Bool :=
  ["Created", "Updated", "DeletedAt", "DeletedBy",
   "CreatedAt", "UpdatedAt", "CreatedBy", "UpdatedBy",
   "TenantID", "ID"].contains fieldName

/-- detectChanges of history.go over the reflective field view: the loop
walks the fields of `before` positionally, reads the same index of `after`,
skips excluded fields and records each differing value pair. Generic in the
field value type. -/
def detectChanges {β : Type} [BEq β] :
    List (String × β) → List (String × β) → List (String × β × β)
  | (n, bv) :: bs, (_, av) :: as2 =>
      if shouldSkipField n then detectChanges bs as2
      else if bv == av then detectChanges bs as2
      else (n, bv, av) :: detectChanges bs as2
  | _, _ => []

/-- Entry-creation decision of RecordChanges: no entry when no non-excluded
field differs, otherwise an entry holding exactly the detected changes. -/
def mkEntryChanges? (b a : List (String × FValue)) :
    Option (List (String × FValue × FValue)) :=
  let changes := detectChanges b a
  if changes.isEmpty then none else some changes

/-- Field values of the embedded entity, for the reflective diff. -/
inductive EFieldVal where
  | fNat (x : Nat)
  | fStr (x : String)
  | fAud (x : AuditInfo)
  | fOptAud (x : Option AuditInfo)
  | fBool (x : Bool)
  deriving DecidableEq, Repr

/-- The reflective field view of the embedded entity, in declaration order
with the Go field names reflection reports. -/
def entityFieldList (e : Entity) : List (String × EFieldVal) :=
  [("ID", EFieldVal.fNat e.id), ("TenantID", EFieldVal.fStr e.tenantID),
   ("Name", EFieldVal.fStr e.name), ("Created", EFieldVal.fAud e.created),
   ("Updated", EFieldVal.fAud e.updated), ("Deleted", EFieldVal.fOptAud e.deleted),
   ("Active", EFieldVal.fBool e.active)]

/-- Persisted history entry (HistoryEntry of history.go); the random entry
id is omitted, the tenant id is the parsed UUID value. -/
structure HistEntry where
  entityID : Nat
  entityType : String
  tenantID : Nat
  triggerName : String
  triggerAt : Int
  triggerBy : String
  changes : List (String × EFieldVal × EFieldVal)
  deriving DecidableEq, Repr

/-- HistoryManager.RecordChanges: no-op on an empty diff; uuid.MustParse on
a non-empty tenant id (panic on a bad one); the insert may fail externally,
modelled by the `insertFails` oracle. -/
def recordChanges (ctx : TenantInfo) (entityID : Nat) (entityType : String)
    (before after : Entity) (hist : List HistEntry) (insertFails : Bool) :
    RRes (List HistEntry) :=
  let changes := detectChanges (entityFieldList before) (entityFieldList after)
  if changes.isEmpty then RRes.ok hist
  else
    match (if ctx.tenantID == "" then some 0 else parseUUID ctx.tenantID) with
    | none => RRes.crash
    | some t =>
        if insertFails then RRes.fail (NewInternalError "insert failed")
        else RRes.ok (hist ++
          [⟨entityID, entityType, t, "Update", ctx.actionAt, ctx.userName, changes⟩])

/-- HistoryAuditRepository.Update: fetch the prior state (a fetch failure is
returned immediately), delegate the update, then record history discarding
its error — but a panic inside RecordChanges still propagates. -/
def historyUpdate (ctx : TenantInfo) (db : List Entity) (hist : List HistEntry)
    (entityType : String) (id : Nat) (entity : Entity) (insertFails : Bool) :
    RRes (Entity × List Entity × List HistEntry) :=
  match mongoAuditGetByID ctx db id with
  | RRes.crash => RRes.crash
  | RRes.fail e => RRes.fail e
  | RRes.ok before =>
      match mongoAuditUpdate ctx db id entity with
      | RRes.crash => RRes.crash
      | RRes.fail e => RRes.fail e
      | RRes.ok (updated, db2) =>
          match recordChanges ctx id entityType before updated hist insertFails with
          | RRes.crash => RRes.crash
          | RRes.fail _ => RRes.ok (updated, db2, hist)
          | RRes.ok hist2 => RRes.ok (updated, db2, hist2)

/-- HistoryManager.GetHistory: Find on {entity_id, tenant_id?}; the tenant
id goes through uuid.MustParse; no sort option is applied, so the result
keeps the collection's order. -/
def getHistory (ctx : TenantInfo) (coll : List HistEntry) (entityID : Nat) :
    RRes (List HistEntry) :=
  if ctx.tenantID == "" then
    RRes.ok (coll.filter (fun h => h.entityID == entityID))
  else
    match parseUUID ctx.tenantID with
    | none => RRes.crash
    | some t =>
        RRes.ok (coll.filter (fun h => h.entityID == entityID && h.tenantID == t))

/-- Newest-first order on trigger timestamps, as the spec words it. -/
def newestFirstB : List HistEntry → Bool
  | [] => true
  | [_] => true
  | a :: b :: rest => (b.triggerAt ≤ a.triggerAt) && newestFirstB (b :: rest)

/-! ## In-memory cache (cache.go) -/

/-- cacheItem: payload bytes and absolute expiry instant. -/
structure CacheItem where
  data : List Nat
  expiresAt : Int
  deriving DecidableEq, Repr

/-- The cache configuration fields the embedded operations read. -/
structure CacheCfg where
  ttl : Int
  keyPref : String
  maxMemory : Int
  deriving DecidableEq, Repr

/-- MemoryCache state: the sync.Map of items and the running byte counter. -/
structure CacheSt where
  items : List (String × CacheItem)
  size : Int
  deriving DecidableEq, Repr

/-- sync.Map Load: first binding of the key. -/
def lookupItem (items : List (String × CacheItem)) (k : String) :
    Option CacheItem :=
  match items.find? (fun kv => kv.1 == k) with
  | none => none
  | some kv => some kv.2

/-- sync.Map Delete: drop the binding of the key. -/
def removeKey (items : List (String × CacheItem)) (k : String) :
    List (String × CacheItem) :=
  match items with
  | [] => []
  | kv :: rest => if kv.1 == k then rest else kv :: removeKey rest k

/-- sync.Map Store: overwrite the binding or append a new one. -/
def storeItem (items : List (String × CacheItem)) (k : String) (it : CacheItem) :
    List (String × CacheItem) :=
  match items with
  | [] => [(k, it)]
  | kv :: rest => if kv.1 == k then (k, it) :: rest else kv :: storeItem rest k it

/-- Sum of the stored payload lengths. -/
def sumLen (items : List (String × CacheItem)) : Int :=
  items.foldr (fun kv acc => (kv.2.data.length : Int) + acc) 0

/-- MemoryCache.Get: a hit before the expiry instant returns the data; an
entry at or past its expiry is deleted lazily — without touching the size
counter — and reported as a miss. -/
def cacheGet (cfg : CacheCfg) (st : CacheSt) (now : Int) (key : String) :
    Option (List Nat) × CacheSt :=
  let fullKey := cfg.keyPref ++ key
  match lookupItem st.items fullKey with
  | some it =>
      if now < it.expiresAt then (some it.data, st)
      else (none, { st with items := removeKey st.items fullKey })
  | none => (none, st)

/-- evictOldest: delete the first expired entry found during the scan,
decrementing the counter by its length, and stop. -/
def evictFirstExpired (items : List (String × CacheItem)) (now : Int) :
    List (String × CacheItem) × Int :=
  match items with
  | [] => ([], 0)
  | (k, it) :: rest =>
      if it.expiresAt < now then (rest, (it.data.length : Int))
      else
        let p := evictFirstExpired rest now
        ((k, it) :: p.1, p.2)

/-- MemoryCache.evictOldest on the state. -/
def evictOldest (st : CacheSt) (now : Int) : CacheSt :=
  let p := evictFirstExpired st.items now
  { items := p.1, size := st.size - p.2 }

/-- MemoryCache.Set: a zero ttl falls back to the configured one; when the
budget would be exceeded evictOldest runs; the item is stored and the
counter grows by the new length — the length of an overwritten entry is
never subtracted. -/
def cacheSet (cfg : CacheCfg) (st : CacheSt) (now : Int) (key : String)
    (value : List Nat) (ttl : Int) : CacheSt :=
  let t := if ttl == 0 then cfg.ttl else ttl
  let fullKey := cfg.keyPref ++ key
  let item : CacheItem := ⟨value, now + t⟩
  let st1 := if cfg.maxMemory < st.size + (value.length : Int) then evictOldest st now else st
  { items := storeItem st1.items fullKey item,
    size := st1.size + (value.length : Int) }

/-- MemoryCache.Delete: LoadAndDelete, decrementing the counter by the
removed entry's length when one existed. -/
def cacheDelete (cfg : CacheCfg) (st : CacheSt) (key : String) : CacheSt :=
  let fullKey := cfg.keyPref ++ key
  match lookupItem st.items fullKey with
  | some it =>
      { items := removeKey st.items fullKey,
        size := st.size - (it.data.length : Int) }
  | none => st

/-- One pass of the cleanup goroutine's Range: every expired entry is
removed and its length freed from the counter. -/
def cleanupItems (items : List (String × CacheItem)) (now : Int) :
    List (String × CacheItem) × Int :=
  match items with
  | [] => ([], 0)
  | (k, it) :: rest =>
      let p := cleanupItems rest now
      if it.expiresAt < now then (p.1, p.2 + (it.data.length : Int))
      else ((k, it) :: p.1, p.2)

/-- MemoryCache.cleanup single sweep on the state. -/
def cleanupPass (st : CacheSt) (now : Int) : CacheSt :=
  let p := cleanupItems st.items now
  { items := p.1, size := st.size - p.2 }

/-- MemoryCache.Clear. -/
def cacheClear (_st : CacheSt) : CacheSt := ⟨[], 0⟩

/-! ## Shared concrete fixtures -/

/-- An empty-tenant, empty-user request context. -/
def ctx0 : TenantInfo := ⟨"", "", "alice", 5⟩

/-- A context whose user id is non-empty and not a UUID. -/
def ctxBadUser : TenantInfo := ⟨"", "not-a-uuid", "mallory", 5⟩

/-- A context whose tenant id is non-empty and not a UUID. -/
def ctxBadTenant : TenantInfo := ⟨"not-a-uuid", "", "mallory", 5⟩

/-- A pre-existing audit stamp. -/
def aud0 : AuditInfo := ⟨1, "alice", 0, false⟩

/-- A live stored entity. -/
def ent0 : Entity := ⟨1, "", "Ana", aud0, aud0, none, true⟩

/-- The same entity with another name (used as an update payload and as a
differing after-state). -/
def entRenamed : Entity := ⟨1, "", "Ana Maria", aud0, aud0, none, true⟩

/-- A soft-deleted stored entity. -/
def entSoftDeleted : Entity := ⟨1, "", "Ana", aud0, aud0, some ⟨2, "alice", 0, false⟩, true⟩

/-! ## C1 — filter sanitization -/

theorem sanitizeEntries_mem_valid (fs : Filters) (k : String) (v : FValue)
    (h : (k, v) ∈ sanitizeEntries fs) : isValidFieldName k = true := by
  induction fs with
  | nil => simp [sanitizeEntries] at h
  | cons kv rest ih =>
      obtain ⟨k2, v2⟩ := kv
      rw [sanitizeEntries] at h
      by_cases hv : isValidFieldName k2
      · simp only [hv, Bool.not_true, Bool.false_eq_true, if_false] at h
        cases hsv : sanitizeFilterValue v2 with
        | error m => rw [hsv] at h; exact ih h
        | ok v3 =>
            rw [hsv] at h
            rcases List.mem_cons.mp h with heq | hmem
            · cases heq; exact hv
            · exact ih hmem
      · simp only [hv] at h
        simp at h
        exact ih h

theorem sanitizeEntries_mem_keep (fs : Filters) (k : String) (v : FValue)
    (hmem : (k, v) ∈ fs) (hvalid : isValidFieldName k = true)
    (hval : sanitizeFilterValue v = Except.ok v) : (k, v) ∈ sanitizeEntries fs := by
  induction fs with
  | nil => simp at hmem
  | cons kv rest ih =>
      obtain ⟨k2, v2⟩ := kv
      rw [sanitizeEntries]
      rcases List.mem_cons.mp hmem with heq | hmem2
      · cases heq
        simp only [hvalid, Bool.not_true, Bool.false_eq_true, if_false, hval]
        exact List.mem_cons_self _ _
      · by_cases hv : isValidFieldName k2
        · simp only [hv, Bool.not_true, Bool.false_eq_true, if_false]
          cases hsv : sanitizeFilterValue v2 with
          | error m => exact ih hmem2
          | ok v3 => exact List.mem_cons_of_mem _ (ih hmem2)
        · simp only [hv]
          simp
          exact ih hmem2

/-- C1: a filters map with more than 20 keys fails the whole sanitization
pass with a Validation-kind (400) error; otherwise every key failing the
whitelist-or-safe-pattern check is dropped from the output, and the key
"name" with a short, pattern-free string value passes through unchanged. -/
theorem C1_filter_sanitization (fs : Filters) :
    (20 < fs.length →
      mongoFilterGate fs = Except.error (NewBadRequestError "Invalid filter parameters") ∧
      (NewBadRequestError "Invalid filter parameters").isValidationKind = true) ∧
    (fs.length ≤ 20 →
      mongoFilterGate fs = Except.ok (sanitizeEntries fs) ∧
      (∀ k v, (k, v) ∈ sanitizeEntries fs → isValidFieldName k = true) ∧
      (∀ s : String, s.length < 1000 →
        valueDangerous.any (fun pat => strContains (strToLower s) pat) = false →
        ("name", FValue.vStr s) ∈ fs →
        ("name", FValue.vStr s) ∈ sanitizeEntries fs)) := by
  constructor
  · intro hlen
    have hgt : fs.length > 20 := hlen
    constructor
    · simp [mongoFilterGate, sanitizeFilters, if_pos hgt]
    · rfl
  · intro hlen
    have hngt : ¬ fs.length > 20 := by omega
    refine ⟨by simp [mongoFilterGate, sanitizeFilters, if_neg hngt], ?_, ?_⟩
    · exact fun k v h => sanitizeEntries_mem_valid fs k v h
    · intro s hshort hsafe hmem
      refine sanitizeEntries_mem_keep fs _ _ hmem (by decide) ?_
      have h1 : ¬ s.length > 1000 := by omega
      simp [sanitizeFilterValue, if_neg h1, hsafe]

/-- C1 witness: on a concrete filters map, the benign "name" filter is kept
and membership of the dropped "$where" key is refutable. -/
theorem C1_filter_sanitization_witness :
    ("name", FValue.vStr "Ana") ∈
      sanitizeEntries [("name", FValue.vStr "Ana"), ("$where", FValue.vStr "x")] ∧
    isValidFieldName "$where" = false :=
  ⟨((C1_filter_sanitization
      [("name", FValue.vStr "Ana"), ("$where", FValue.vStr "x")]).2
      (by decide)).2.2 "Ana" (by decide) (by decide) (by decide),
   by decide⟩

/-! ## C2 — pagination bounds -/

/-- C2 counterexample: the in-memory Repository implementation accepts
skip = -1 and take = 1001 and succeeds, so not every Repository
implementation validates the pagination bounds. -/
theorem C2_counterexample_memory :
    memoryGetAllSkipTake [true] [] (-1) 1001 = Except.ok [true] := by
  rfl

/-- C2 amended: only the base document-database store enforces the bounds —
its GetAllSkipTake fails with the 400 pagination error exactly when skip<0,
take<0 or take>1000 — while the in-memory store and the Mongo audit
repository never perform pagination validation (their driver calls are
modelled as pure list slicing). -/
theorem C2_pagination_amended :
    (∀ (db : List Entity) (fs : Filters) (skip take : Int),
      (mongoGetAllSkipTake db fs skip take =
          Except.error (NewBadRequestError "Invalid pagination parameters")) ↔
        (skip < 0 ∨ take < 0 ∨ 1000 < take)) ∧
    (∀ (α : Type) (db : List α) (fs : Filters) (skip take : Int),
      ∃ r, memoryGetAllSkipTake db fs skip take = Except.ok r) ∧
    (∀ (ctx : TenantInfo) (db : List Entity) (fs : Filters) (skip take : Int),
      ∃ r, mongoAuditGetAllSkipTake ctx db fs skip take = Except.ok r) := by
  refine ⟨?_, fun α db fs skip take => ⟨_, rfl⟩, fun ctx db fs skip take => ⟨_, rfl⟩⟩
  intro db fs skip take
  by_cases hc : skip < 0 ∨ take < 0 ∨ 1000 < take
  · have hb : (decide (skip < 0) || decide (take < 0) || decide (take > 1000)) = true := by
      rcases hc with h | h | h <;> simp [h]
    rw [mongoGetAllSkipTake]
    simp only [hb, if_true]
    exact iff_of_true trivial hc
  · push_neg at hc
    have hb : (decide (skip < 0) || decide (take < 0) || decide (take > 1000)) = false := by
      simp only [Bool.or_eq_false_iff, decide_eq_false_iff_not, not_lt]
      exact ⟨⟨hc.1, hc.2.1⟩, hc.2.2⟩
    rw [mongoGetAllSkipTake]
    simp only [hb, Bool.false_eq_true, if_false]
    apply iff_of_false _ (by push_neg; exact hc)
    cases hsf : sanitizeFilters fs with
    | error m =>
        intro h
        have : NewBadRequestError "Invalid filter parameters" =
            NewBadRequestError "Invalid pagination parameters" :=
          Except.error.injEq .. ▸ h
        exact absurd this (by decide)
    | ok sfs => intro h; cases h

/-! ## C7 — cache TTL round trip -/

theorem lookupItem_storeItem (items : List (String × CacheItem)) (k : String)
    (it : CacheItem) : lookupItem (storeItem items k it) k = some it := by
  induction items with
  | nil => simp [storeItem, lookupItem, List.find?]
  | cons kv rest ih =>
      rw [storeItem]
      by_cases hk : kv.1 == k
      · simp [hk, lookupItem, List.find?]
      · simp only [hk, Bool.false_eq_true, if_false]
        rw [lookupItem, List.find?]
        simp only [hk]
        exact ih

/-- C7: on the in-memory cache, Set followed by Get at the same instant
returns the stored value (the effective TTL being positive), and any Get at
or after an entry's expiry instant misses — including the Get that follows
the Set once the TTL has elapsed. -/
theorem C7_cache_ttl (cfg : CacheCfg) (st : CacheSt) (now now2 ttl : Int)
    (key : String) (value : List Nat)
    (hpos : 0 < (if ttl == 0 then cfg.ttl else ttl)) :
    (cacheGet cfg (cacheSet cfg st now key value ttl) now key).1 = some value ∧
    (now + (if ttl == 0 then cfg.ttl else ttl) ≤ now2 →
      (cacheGet cfg (cacheSet cfg st now key value ttl) now2 key).1 = none) ∧
    (∀ (st2 : CacheSt) (it : CacheItem),
      lookupItem st2.items (cfg.keyPref ++ key) = some it → it.expiresAt ≤ now2 →
      (cacheGet cfg st2 now2 key).1 = none) := by
  have hstore :
      lookupItem (cacheSet cfg st now key value ttl).items (cfg.keyPref ++ key) =
        some ⟨value, now + (if ttl == 0 then cfg.ttl else ttl)⟩ := by
    rw [cacheSet]
    exact lookupItem_storeItem _ _ _
  refine ⟨?_, ?_, ?_⟩
  · rw [cacheGet, hstore]
    simp only
    rw [if_pos (by omega)]
  · intro h2
    rw [cacheGet, hstore]
    simp only
    rw [if_neg (by omega)]
  · intro st2 it hl hexp
    rw [cacheGet, hl]
    simp only
    rw [if_neg (by omega)]

/-- C7 witness: a concrete Set at instant 0 with TTL 5 hits at instant 0 and
misses at instant 5. -/
theorem C7_cache_ttl_witness :
    (cacheGet ⟨10, "zendia:", 100⟩ (cacheSet ⟨10, "zendia:", 100⟩ ⟨[], 0⟩ 0 "k" [1, 2] 5) 0 "k").1 =
      some [1, 2] ∧
    (cacheGet ⟨10, "zendia:", 100⟩ (cacheSet ⟨10, "zendia:", 100⟩ ⟨[], 0⟩ 0 "k" [1, 2] 5) 5 "k").1 =
      none :=
  ⟨(C7_cache_ttl ⟨10, "zendia:", 100⟩ ⟨[], 0⟩ 0 5 5 "k" [1, 2] (by decide)).1,
   (C7_cache_ttl ⟨10, "zendia:", 100⟩ ⟨[], 0⟩ 0 5 5 "k" [1, 2] (by decide)).2.1 (by decide)⟩

/-! ## C9 — cache size counter vs stored bytes -/

theorem sumLen_nonneg (items : List (String × CacheItem)) : 0 ≤ sumLen items := by
  induction items with
  | nil => simp [sumLen]
  | cons kv rest ih => rw [sumLen, List.foldr]; rw [sumLen] at ih; positivity

theorem sumLen_cons (kv : String × CacheItem) (rest : List (String × CacheItem)) :
    sumLen (kv :: rest) = (kv.2.data.length : Int) + sumLen rest := rfl

theorem sumLen_pair (k : String) (it : CacheItem) (rest : List (String × CacheItem)) :
    sumLen ((k, it) :: rest) = (it.data.length : Int) + sumLen rest := rfl

theorem sumLen_removeKey_le (items : List (String × CacheItem)) (k : String) :
    sumLen (removeKey items k) ≤ sumLen items := by
  induction items with
  | nil => simp [removeKey]
  | cons kv rest ih =>
      rw [removeKey]
      by_cases hk : kv.1 == k
      · simp only [hk, if_true]
        rw [sumLen_cons]
        have := sumLen_nonneg rest
        omega
      · simp only [hk, Bool.false_eq_true, if_false]
        rw [sumLen_cons, sumLen_cons]
        omega

theorem sumLen_storeItem_le (items : List (String × CacheItem)) (k : String)
    (it : CacheItem) :
    sumLen (storeItem items k it) ≤ sumLen items + (it.data.length : Int) := by
  induction items with
  | nil => simp [storeItem, sumLen]
  | cons kv rest ih =>
      rw [storeItem]
      by_cases hk : kv.1 == k
      · simp only [hk, if_true]
        rw [sumLen_cons, sumLen_cons]
        simp only
        omega
      · simp only [hk, Bool.false_eq_true, if_false]
        rw [sumLen_cons, sumLen_cons]
        omega

theorem evictFirstExpired_sum (items : List (String × CacheItem)) (now : Int) :
    sumLen (evictFirstExpired items now).1 + (evictFirstExpired items now).2 =
      sumLen items := by
  induction items with
  | nil => simp [evictFirstExpired, sumLen]
  | cons kv rest ih =>
      obtain ⟨k, it⟩ := kv
      rw [evictFirstExpired]
      by_cases he : it.expiresAt < now
      · simp only [he, if_true]
        rw [sumLen_pair]
        omega
      · simp only [he, if_false]
        rw [sumLen_pair, sumLen_pair]
        omega

theorem cleanupItems_sum (items : List (String × CacheItem)) (now : Int) :
    sumLen (cleanupItems items now).1 + (cleanupItems items now).2 = sumLen items := by
  induction items with
  | nil => simp [cleanupItems, sumLen]
  | cons kv rest ih =>
      obtain ⟨k, it⟩ := kv
      rw [cleanupItems]
      by_cases he : it.expiresAt < now
      · simp only [he, if_true]
        rw [sumLen_pair]
        omega
      · simp only [he, if_false]
        rw [sumLen_pair, sumLen_pair]
        omega

theorem sumLen_removeKey_lookup (items : List (String × CacheItem)) (k : String)
    (it : CacheItem) (h : lookupItem items k = some it) :
    sumLen (removeKey items k) = sumLen items - (it.data.length : Int) := by
  induction items with
  | nil => simp [lookupItem, List.find?] at h
  | cons kv rest ih =>
      rw [lookupItem, List.find?] at h
      by_cases hk : kv.1 == k
      · simp only [hk] at h
        cases h
        rw [removeKey]
        simp only [hk, if_true, sumLen_cons]
        omega
      · simp only [hk] at h
        rw [removeKey]
        simp only [hk, Bool.false_eq_true, if_false]
        rw [sumLen_cons, sumLen_cons, ih h]
        omega

/-- C9 counterexample: starting from the empty cache, one Set of a 3-byte
value satisfies the size = sum equality, but the lazy deletion performed by
a Get after expiry removes the entry without decrementing the counter,
leaving size 3 over an empty item map — the exact-sum invariant is not
preserved by every operation. -/
theorem C9_counterexample_size_leak :
    (cacheSet ⟨10, "zendia:", 100⟩ ⟨[], 0⟩ 0 "k" [1, 2, 3] 5).size =
      sumLen (cacheSet ⟨10, "zendia:", 100⟩ ⟨[], 0⟩ 0 "k" [1, 2, 3] 5).items ∧
    (cacheGet ⟨10, "zendia:", 100⟩ (cacheSet ⟨10, "zendia:", 100⟩ ⟨[], 0⟩ 0 "k" [1, 2, 3] 5) 9 "k").2.size = 3 ∧
    sumLen (cacheGet ⟨10, "zendia:", 100⟩ (cacheSet ⟨10, "zendia:", 100⟩ ⟨[], 0⟩ 0 "k" [1, 2, 3] 5) 9 "k").2.items = 0 := by
  refine ⟨rfl, rfl, rfl⟩

/-- C9 amended: the byte counter is only an upper bound on the bytes
actually stored — every operation (Get with its lazy expiry deletion, Set
including overwrite and eviction, Delete, the background sweep, Clear)
preserves sum-of-lengths ≤ size, while Get's lazy deletion (and Set
overwrites) can make the inequality strict. -/
theorem C9_size_bound_amended (cfg : CacheCfg) (st : CacheSt) (now : Int)
    (key : String) (value : List Nat) (ttl : Int)
    (hinv : sumLen st.items ≤ st.size) :
    sumLen (cacheGet cfg st now key).2.items ≤ (cacheGet cfg st now key).2.size ∧
    sumLen (cacheSet cfg st now key value ttl).items ≤ (cacheSet cfg st now key value ttl).size ∧
    sumLen (cacheDelete cfg st key).items ≤ (cacheDelete cfg st key).size ∧
    sumLen (cleanupPass st now).items ≤ (cleanupPass st now).size ∧
    sumLen (cacheClear st).items ≤ (cacheClear st).size := by
  refine ⟨?_, ?_, ?_, ?_, by simp [cacheClear, sumLen]⟩
  · rw [cacheGet]
    cases hl : lookupItem st.items (cfg.keyPref ++ key) with
    | none => exact hinv
    | some it =>
        by_cases ht : now < it.expiresAt
        · simp only [ht, if_true]
          exact hinv
        · simp only [ht, if_false]
          exact le_trans (sumLen_removeKey_le _ _) hinv
  · rw [cacheSet]
    simp only
    by_cases hm : cfg.maxMemory < st.size + (value.length : Int)
    · simp only [hm, if_true]
      have hev := evictFirstExpired_sum st.items now
      have hst := sumLen_storeItem_le (evictOldest st now).items (cfg.keyPref ++ key)
        ⟨value, now + (if ttl == 0 then cfg.ttl else ttl)⟩
      rw [evictOldest] at hst ⊢
      simp only at hst ⊢
      omega
    · simp only [hm, if_false]
      have hst := sumLen_storeItem_le st.items (cfg.keyPref ++ key)
        ⟨value, now + (if ttl == 0 then cfg.ttl else ttl)⟩
      simp only at hst
      omega
  · rw [cacheDelete]
    cases hl : lookupItem st.items (cfg.keyPref ++ key) with
    | none => exact hinv
    | some it =>
        simp only
        rw [sumLen_removeKey_lookup st.items _ it hl]
        omega
  · rw [cleanupPass]
    have := cleanupItems_sum st.items now
    have := sumLen_nonneg (cleanupItems st.items now).1
    simp only
    omega

/-- C9 witness: the upper-bound invariant applied to a concrete one-entry
state. -/
theorem C9_size_bound_witness :
    sumLen (cacheDelete ⟨10, "zendia:", 100⟩ ⟨[("zendia:k", ⟨[1, 2, 3], 5⟩)], 3⟩ "k").items ≤
      (cacheDelete ⟨10, "zendia:", 100⟩ ⟨[("zendia:k", ⟨[1, 2, 3], 5⟩)], 3⟩ "k").size :=
  (C9_size_bound_amended ⟨10, "zendia:", 100⟩ ⟨[("zendia:k", ⟨[1, 2, 3], 5⟩)], 3⟩ 0 "k" [] 0
    (by decide)).2.2.1

/-! ## C5 — field diffing of the History decorator -/

theorem detectChanges_eq_zip {β : Type} [BEq β] [LawfulBEq β]
    (b a : List (String × β)) :
    detectChanges b a =
      ((b.zip a).filter (fun p => !shouldSkipField p.1.1 && p.1.2 != p.2.2)).map
        (fun p => (p.1.1, p.1.2, p.2.2)) := by
  induction b generalizing a with
  | nil => cases a <;> rfl
  | cons x bs ih =>
      cases a with
      | nil => rfl
      | cons y as2 =>
          obtain ⟨x1, x2⟩ := x
          obtain ⟨y1, y2⟩ := y
          rw [detectChanges, List.zip_cons_cons, List.filter_cons]
          by_cases hs : shouldSkipField x1
          · simp [hs, ih]
          · by_cases he : (x2 == y2)
            · have hb : (x2 != y2) = false := by simp [bne, he]
              simp [hs, he, hb, ih]
            · have hb : (x2 != y2) = true := by simp [bne, he]
              simp [hs, he, hb, ih]

theorem zip_names {β : Type} :
    ∀ (b a : List (String × β)), b.map Prod.fst = a.map Prod.fst →
      ∀ p ∈ b.zip a, p.1.1 = p.2.1 := by
  intro b
  induction b with
  | nil => intro a hn p hp; simp at hp
  | cons x bs ih =>
      intro a hn p hp
      cases a with
      | nil => simp at hp
      | cons y as2 =>
          simp only [List.map_cons, List.cons.injEq] at hn
          rw [List.zip_cons_cons] at hp
          rcases List.mem_cons.mp hp with h | h
          · subst h; exact hn.1
          · exact ih as2 hn.2 p h

/-- C5: over the positional field views of the before/after states, a
history entry is created iff some non-excluded field differs; every
recorded change names a non-excluded field and carries the exact before and
after values of that field; and when exactly one non-excluded field
differs, the entry holds exactly that single change. -/
theorem C5_history_diff (b a : List (String × FValue))
    (hn : b.map Prod.fst = a.map Prod.fst) :
    ((mkEntryChanges? b a).isSome ↔
      ∃ p ∈ b.zip a, shouldSkipField p.1.1 = false ∧ p.1.2 ≠ p.2.2) ∧
    (∀ k bv av, (k, bv, av) ∈ detectChanges b a →
      shouldSkipField k = false ∧ (k, bv) ∈ b ∧ (k, av) ∈ a) ∧
    (∀ k bv av,
      (b.zip a).filter (fun p => !shouldSkipField p.1.1 && p.1.2 != p.2.2) =
          [((k, bv), (k, av))] →
      mkEntryChanges? b a = some [(k, bv, av)]) := by
  have hdz := detectChanges_eq_zip b a
  refine ⟨?_, ?_, ?_⟩
  · simp only [mkEntryChanges?]
    by_cases hne : (detectChanges b a).isEmpty
    · simp only [hne, if_true, Option.isSome_none, Bool.false_eq_true, false_iff]
      rw [List.isEmpty_iff, hdz, List.map_eq_nil_iff, List.filter_eq_nil_iff] at hne
      rintro ⟨p, hp, hs, hv⟩
      exact hne p hp (by simp [hs, bne_iff_ne, hv])
    · simp only [hne, Bool.false_eq_true, if_false, Option.isSome_some, true_iff]
      rw [List.isEmpty_iff, hdz, List.map_eq_nil_iff, List.filter_eq_nil_iff] at hne
      push_neg at hne
      obtain ⟨p, hp, hpred⟩ := hne
      rw [Bool.and_eq_true, Bool.not_eq_true', bne_iff_ne] at hpred
      exact ⟨p, hp, hpred.1, hpred.2⟩
  · intro k bv av hmem
    rw [hdz] at hmem
    obtain ⟨p, hpf, hpe⟩ := List.mem_map.mp hmem
    obtain ⟨hpz, hpred⟩ := List.mem_filter.mp hpf
    rw [Bool.and_eq_true, Bool.not_eq_true', bne_iff_ne] at hpred
    simp only [Prod.mk.injEq] at hpe
    obtain ⟨h1, h2, h3⟩ := hpe
    have hnames := zip_names b a hn p hpz
    have hb1 : p.1 ∈ b := (List.of_mem_zip hpz).1
    have ha1 : p.2 ∈ a := (List.of_mem_zip hpz).2
    refine ⟨h1 ▸ hpred.1, ?_, ?_⟩
    · have hp1 : p.1 = (k, bv) := Prod.ext h1 h2
      exact hp1 ▸ hb1
    · have hp2 : p.2 = (k, av) := Prod.ext (by rw [← hnames, h1]) h3
      exact hp2 ▸ ha1
  · intro k bv av hfil
    simp only [mkEntryChanges?]
    rw [hdz, hfil]
    rfl

/-- C5 witness: renaming one field produces exactly one recorded change with
the right before/after values, while the excluded ID field's change is not
recorded. -/
theorem C5_history_diff_witness :
    mkEntryChanges? [("ID", FValue.vInt 1), ("Name", FValue.vStr "Ana")]
        [("ID", FValue.vInt 2), ("Name", FValue.vStr "Maria")] =
      some [("Name", FValue.vStr "Ana", FValue.vStr "Maria")] :=
  (C5_history_diff
      [("ID", FValue.vInt 1), ("Name", FValue.vStr "Ana")]
      [("ID", FValue.vInt 2), ("Name", FValue.vStr "Maria")]
      (by decide)).2.2 "Name" (FValue.vStr "Ana") (FValue.vStr "Maria") (by decide)

/-! ## C6 — create-time audit stamping -/

theorem userIDFor_of_valid (ctx : TenantInfo)
    (hu : ctx.userID = "" ∨ (parseUUID ctx.userID).isSome) :
    ∃ u, userIDFor ctx = some u := by
  rw [userIDFor]
  rcases hu with h | h
  · rw [h]; exact ⟨0, by simp⟩
  · by_cases he : ctx.userID == ""
    · exact ⟨0, by simp [he]⟩
    · simp only [he, Bool.false_eq_true, if_false]
      exact Option.isSome_iff_exists.mp h

/-- C6 counterexample: MongoAuditRepository.Create (one of the claim's two
cited Create paths) never calls SetActive, so an entity created with
active=false keeps active=false — the claim's "active flag is set true"
fails on that path. -/
theorem C6_counterexample_mongo_create_active :
    mongoAuditCreate ctx0 [] 7 ⟨0, "", "Bea", aud0, aud0, none, false⟩ =
      RRes.ok (⟨7, "", "Bea", ⟨5, "alice", 0, false⟩, ⟨5, "alice", 0, false⟩, none, false⟩,
        [⟨7, "", "Bea", ⟨5, "alice", 0, false⟩, ⟨5, "alice", 0, false⟩, none, false⟩]) ∧
    (⟨7, "", "Bea", ⟨5, "alice", 0, false⟩, ⟨5, "alice", 0, false⟩, none,
        false⟩ : Entity).active = false := by
  exact ⟨rfl, rfl⟩

/-- C6 amended: through the generic Audit decorator's Create the entity
comes back with identical Created and Updated stamps (hence equal SetAt),
active set true and the context's tenant id; through the Mongo audit
repository's Create the stamps and tenant are set the same way but the
active flag is left exactly as it came in. -/
theorem C6_create_stamp_amended (ctx : TenantInfo) (e : Entity) (db : List Entity)
    (newID : Nat) (hu : ctx.userID = "" ∨ (parseUUID ctx.userID).isSome) :
    (∃ e2, auditCreate ctx e = RRes.ok e2 ∧ e2.created = e2.updated ∧
      e2.created.setAt = e2.updated.setAt ∧ e2.active = true ∧
      e2.tenantID = ctx.tenantID) ∧
    (∃ e2 db2, mongoAuditCreate ctx db newID e = RRes.ok (e2, db2) ∧
      e2.created = e2.updated ∧ e2.created.setAt = e2.updated.setAt ∧
      e2.active = e.active ∧ e2.tenantID = ctx.tenantID) := by
  obtain ⟨u, hu2⟩ := userIDFor_of_valid ctx hu
  constructor
  · rw [auditCreate, hu2]
    exact ⟨_, rfl, rfl, rfl, rfl, rfl⟩
  · rw [mongoAuditCreate, hu2]
    by_cases hid : e.id == 0
    · simp only [hid, if_true]
      exact ⟨_, _, rfl, rfl, rfl, rfl, rfl⟩
    · simp only [hid, Bool.false_eq_true, if_false]
      exact ⟨_, _, rfl, rfl, rfl, rfl, rfl⟩

/-- C6 witness: the amended statement at a concrete context and entity. -/
theorem C6_create_stamp_witness :
    (∃ e2, auditCreate ctx0 ent0 = RRes.ok e2 ∧ e2.created = e2.updated ∧
      e2.created.setAt = e2.updated.setAt ∧ e2.active = true ∧
      e2.tenantID = ctx0.tenantID) ∧
    (∃ e2 db2, mongoAuditCreate ctx0 [] 7 ent0 = RRes.ok (e2, db2) ∧
      e2.created = e2.updated ∧ e2.created.setAt = e2.updated.setAt ∧
      e2.active = ent0.active ∧ e2.tenantID = ctx0.tenantID) :=
  C6_create_stamp_amended ctx0 ent0 [] 7 (Or.inl rfl)

/-! ## C10 — MustParse panics on malformed context ids -/

/-- C10: the audited Create/Update paths and history recording are
panic-free when the context's user id (tenant id, for history) is empty or
a well-formed UUID, and a non-empty malformed user id (tenant id) makes
each of them panic via uuid.MustParse. -/
theorem C10_mustparse_panic :
    (∀ (ctx : TenantInfo) (e ent : Entity) (db : List Entity) (newID id : Nat),
      ctx.userID = "" ∨ (parseUUID ctx.userID).isSome →
      auditCreate ctx e ≠ RRes.crash ∧
      mongoAuditCreate ctx db newID e ≠ RRes.crash ∧
      mongoAuditUpdate ctx db id ent ≠ RRes.crash) ∧
    (∀ (ctx : TenantInfo) (entityID : Nat) (etype : String) (bef aft : Entity)
      (hist : List HistEntry) (ins : Bool),
      ctx.tenantID = "" ∨ (parseUUID ctx.tenantID).isSome →
      recordChanges ctx entityID etype bef aft hist ins ≠ RRes.crash) ∧
    auditCreate ctxBadUser ent0 = RRes.crash ∧
    mongoAuditCreate ctxBadUser [] 7 ent0 = RRes.crash ∧
    mongoAuditUpdate ctxBadUser [ent0] 1 ent0 = RRes.crash ∧
    recordChanges ctxBadTenant 1 "User" ent0 entRenamed [] false = RRes.crash := by
  refine ⟨?_, ?_, rfl, rfl, rfl, rfl⟩
  · intro ctx e ent db newID id hu
    obtain ⟨u, hu2⟩ := userIDFor_of_valid ctx hu
    refine ⟨?_, ?_, ?_⟩
    · rw [auditCreate, hu2]; intro h; cases h
    · rw [mongoAuditCreate, hu2]
      by_cases hid : e.id == 0
      · simp only [hid, if_true]; intro h; cases h
      · simp only [hid, Bool.false_eq_true, if_false]; intro h; cases h
    · intro h
      simp only [mongoAuditUpdate, hu2] at h
      split at h <;> cases h
  · intro ctx entityID etype bef aft hist ins ht
    have hopt : (if ctx.tenantID == "" then some 0 else parseUUID ctx.tenantID).isSome := by
      rcases ht with h | h
      · rw [h]; simp
      · by_cases he : ctx.tenantID == ""
        · simp [he]
        · simp only [he, Bool.false_eq_true, if_false]; exact h
    obtain ⟨t, ht2⟩ := Option.isSome_iff_exists.mp hopt
    rw [recordChanges]
    by_cases hch : (detectChanges (entityFieldList bef) (entityFieldList aft)).isEmpty
    · simp only [hch, if_true]; intro h; cases h
    · simp only [hch, Bool.false_eq_true, if_false]
      rw [ht2]
      cases ins <;> (intro h; cases h)

/-- C10 witness: the panic-freedom half at a concrete well-formed context. -/
theorem C10_mustparse_panic_witness :
    auditCreate ctx0 ent0 ≠ RRes.crash ∧
    recordChanges ctx0 1 "User" ent0 entRenamed [] false ≠ RRes.crash :=
  ⟨(C10_mustparse_panic.1 ctx0 ent0 ent0 [] 7 1 (Or.inl rfl)).1,
   C10_mustparse_panic.2.1 ctx0 1 "User" ent0 entRenamed [] false (Or.inl rfl)⟩

/-! ## C4 — history recording vs the Update result -/

/-- Projection of the History decorator's Update result onto the business
outcome (updated entity and new collection), forgetting the history log. -/
def resCore (r : RRes (Entity × List Entity × List HistEntry)) :
    RRes (Entity × List Entity) :=
  match r with
  | RRes.crash => RRes.crash
  | RRes.fail e => RRes.fail e
  | RRes.ok (u, db2, _) => RRes.ok (u, db2)

/-- C4 counterexample: on a soft-deleted record the fetch-before-update
(GetByID filters deleted records out) fails, and the History decorator's
Update returns that error without delegating — even though the delegated
Update itself would have succeeded on the same state. -/
theorem C4_counterexample_fetch_error :
    historyUpdate ctx0 [entSoftDeleted] [] "User" 1 entRenamed false =
      RRes.fail (NewNotFoundError "Entity not found") ∧
    mongoAuditUpdate ctx0 [entSoftDeleted] 1 entRenamed =
      RRes.ok (⟨1, "", "Ana Maria", aud0, ⟨5, "alice", 0, false⟩, none, true⟩,
        [⟨1, "", "Ana Maria", aud0, ⟨5, "alice", 0, false⟩, none, true⟩]) :=
  ⟨rfl, rfl⟩

/-- C4 amended: a failing fetch-before-update is returned as the result of
the History decorator's Update (the Update is not delegated); once the
delegated Update succeeds, the history-insert outcome never changes the
business result — the Update returns the updated entity either way. -/
theorem C4_history_nonfatal_amended :
    (∀ (ctx : TenantInfo) (db : List Entity) (hist : List HistEntry)
      (etype : String) (id : Nat) (ent : Entity) (ins : Bool) (er : APIError),
      mongoAuditGetByID ctx db id = RRes.fail er →
      historyUpdate ctx db hist etype id ent ins = RRes.fail er) ∧
    (∀ (ctx : TenantInfo) (db : List Entity) (hist : List HistEntry)
      (etype : String) (id : Nat) (ent : Entity),
      resCore (historyUpdate ctx db hist etype id ent true) =
        resCore (historyUpdate ctx db hist etype id ent false)) := by
  constructor
  · intro ctx db hist etype id ent ins er hget
    rw [historyUpdate, hget]
  · intro ctx db hist etype id ent
    rw [historyUpdate, historyUpdate]
    cases mongoAuditGetByID ctx db id with
    | crash => rfl
    | fail e => rfl
    | ok before =>
        cases mongoAuditUpdate ctx db id ent with
        | crash => rfl
        | fail e => rfl
        | ok p =>
            obtain ⟨updated, db2⟩ := p
            simp only [recordChanges]
            by_cases hch :
              (detectChanges (entityFieldList before) (entityFieldList updated)).isEmpty
            · simp [hch, resCore]
            · simp only [hch, Bool.false_eq_true, if_false]
              cases hopt : (if ctx.tenantID == "" then some 0 else parseUUID ctx.tenantID) with
              | none => simp [resCore]
              | some t => simp [resCore]

/-- C4 witness: the fetch-failure propagation applied at a concrete state
where the record is soft-deleted. -/
theorem C4_history_nonfatal_witness :
    historyUpdate ctx0 [entSoftDeleted] [] "User" 1 entRenamed true =
      RRes.fail (NewNotFoundError "Entity not found") :=
  C4_history_nonfatal_amended.1 ctx0 [entSoftDeleted] [] "User" 1 entRenamed true
    (NewNotFoundError "Entity not found") rfl

/-! ## C8 — GetHistory filtering and ordering -/

/-- A history entry for entity 7 with trigger timestamp 1. -/
def histA : HistEntry := ⟨7, "User", 0, "Update", 1, "alice", []⟩

/-- A later history entry for entity 7 with trigger timestamp 2. -/
def histB : HistEntry := ⟨7, "User", 0, "Update", 2, "alice", []⟩

/-- C8 counterexample: GetHistory applies no sort, so on a collection stored
oldest-first the returned list is oldest-first — not newest-first as the
claim states. -/
theorem C8_counterexample_unsorted :
    getHistory ctx0 [histA, histB] 7 = RRes.ok [histA, histB] ∧
    histA.triggerAt < histB.triggerAt ∧
    newestFirstB [histA, histB] = false :=
  ⟨rfl, by decide, rfl⟩

/-- C8 amended: GetHistory returns exactly the entries whose entity id
matches and — when a tenant context is present — whose tenant id matches,
in the collection's own order (a sublist of the collection); no newest-first
ordering is imposed. -/
theorem C8_gethistory_amended (ctx : TenantInfo) (coll : List HistEntry)
    (entityID : Nat) (ht : ctx.tenantID = "" ∨ (parseUUID ctx.tenantID).isSome) :
    ∃ r, getHistory ctx coll entityID = RRes.ok r ∧ r.Sublist coll ∧
      (∀ h2, h2 ∈ r ↔ h2 ∈ coll ∧ h2.entityID = entityID ∧
        (∀ t, ctx.tenantID ≠ "" → parseUUID ctx.tenantID = some t →
          h2.tenantID = t)) := by
  by_cases hb : ctx.tenantID == ""
  · refine ⟨coll.filter (fun h2 => h2.entityID == entityID), ?_,
      List.filter_sublist _, ?_⟩
    · rw [getHistory, if_pos hb]
    · intro h2
      constructor
      · intro hm
        obtain ⟨hc, hp⟩ := List.mem_filter.mp hm
        refine ⟨hc, by simpa using hp, ?_⟩
        intro t hne _
        exact absurd (by simpa using hb) hne
      · rintro ⟨hc, hid, -⟩
        exact List.mem_filter.mpr ⟨hc, by simpa using hid⟩
  · have hne : ctx.tenantID ≠ "" := by simpa using hb
    rcases ht with h | h
    · exact absurd h hne
    obtain ⟨t, hpt⟩ := Option.isSome_iff_exists.mp h
    have hbf : (ctx.tenantID == "") = false := by simpa using hb
    refine ⟨coll.filter (fun h2 => h2.entityID == entityID && h2.tenantID == t), ?_,
      List.filter_sublist _, ?_⟩
    · rw [getHistory]
      simp only [hbf, Bool.false_eq_true, if_false]
      rw [hpt]
    · intro h2
      constructor
      · intro hm
        obtain ⟨hc, hp⟩ := List.mem_filter.mp hm
        rw [Bool.and_eq_true, beq_iff_eq, beq_iff_eq] at hp
        refine ⟨hc, hp.1, ?_⟩
        intro t2 _ hp2
        rw [hpt] at hp2
        cases hp2
        exact hp.2
      · rintro ⟨hc, hid, htc⟩
        refine List.mem_filter.mpr ⟨hc, ?_⟩
        rw [Bool.and_eq_true, beq_iff_eq, beq_iff_eq]
        exact ⟨hid, htc t hne hpt⟩

/-- C8 witness: the amended statement applied at a concrete collection. -/
theorem C8_gethistory_witness :
    ∃ r, getHistory ctx0 [histA, histB] 7 = RRes.ok r ∧
      r.Sublist [histA, histB] ∧
      (∀ h2, h2 ∈ r ↔ h2 ∈ [histA, histB] ∧ h2.entityID = 7 ∧
        (∀ t, ctx0.tenantID ≠ "" → parseUUID ctx0.tenantID = some t →
          h2.tenantID = t)) :=
  C8_gethistory_amended ctx0 [histA, histB] 7 (Or.inl rfl)

/-! ## C3 — soft delete through the Mongo audit repository -/

theorem replaceFirst_spec :
    ∀ (db db2 : List Entity) (p : Entity → Bool) (x : Entity),
      replaceFirst db p x = some db2 →
      ∃ l1 y l2, db = l1 ++ y :: l2 ∧ db2 = l1 ++ x :: l2 ∧ p y = true ∧
        ∀ z ∈ l1, p z = false := by
  intro db
  induction db with
  | nil => intro db2 p x h; simp [replaceFirst] at h
  | cons e rest ih =>
      intro db2 p x h
      rw [replaceFirst] at h
      by_cases hp : p e
      · rw [if_pos hp] at h
        injection h with h
        exact ⟨[], e, rest, rfl, h.symm, hp, by intro z hz; simp at hz⟩
      · rw [if_neg hp] at h
        rw [Bool.not_eq_true] at hp
        cases hrf : replaceFirst rest p x with
        | none => rw [hrf] at h; cases h
        | some r =>
            rw [hrf, Option.map_some'] at h
            injection h with h
            obtain ⟨l1, y, l2, hdb, hdb2, hpy, hl1⟩ := ih r p x hrf
            refine ⟨e :: l1, y, l2, by rw [hdb]; rfl, by rw [← h, hdb2]; rfl, hpy, ?_⟩
            intro z hz
            rcases List.mem_cons.mp hz with rfl | hz2
            · exact hp
            · exact hl1 z hz2

theorem nodup_split_ids {l1 l2 : List Entity} {y : Entity}
    (h : ((l1 ++ y :: l2).map Entity.id).Nodup) :
    ∀ z, z ∈ l1 ∨ z ∈ l2 → z.id ≠ y.id := by
  rw [List.map_append, List.map_cons, List.nodup_append] at h
  obtain ⟨h1, h2, hdisj⟩ := h
  intro z hz hzy
  rcases hz with hz | hz
  · exact hdisj (List.mem_map_of_mem Entity.id hz)
      (by rw [hzy]; exact List.mem_cons_self _ _)
  · exact (List.nodup_cons.mp h2).1 (by rw [← hzy]; exact List.mem_map_of_mem Entity.id hz)

theorem mongoAuditGetByID_ok {ctx : TenantInfo} {db : List Entity} {id : Nat}
    {y : Entity} (h : mongoAuditGetByID ctx db id = RRes.ok y) :
    db.find? (fun e => e.id == id && e.deleted.isNone && ctxTenantFilter ctx e) =
      some y := by
  rw [mongoAuditGetByID] at h
  split at h
  · cases h
  · rename_i e heq
    injection h with h
    rw [h] at heq
    exact heq

theorem mongoAuditUpdate_ok {ctx : TenantInfo} {db db2 : List Entity} {id : Nat}
    {entity ent2 : Entity}
    (h : mongoAuditUpdate ctx db id entity = RRes.ok (ent2, db2)) :
    ∃ u, userIDFor ctx = some u ∧
      ent2 = { entity with
        updated := ⟨ctx.actionAt, ctx.userName, u, false⟩,
        tenantID := ctx.tenantID } ∧
      replaceFirst db (fun d => d.id == id && ctxTenantFilter ctx d) ent2 =
        some db2 := by
  rw [mongoAuditUpdate] at h
  split at h
  · cases h
  · rename_i u heq
    split at h
    · cases h
    · rename_i r heq2
      injection h with h
      injection h with h1 h2
      refine ⟨u, heq, h1.symm, ?_⟩
      rw [← h1, ← h2]
      exact heq2

theorem mongoAuditDelete_ok {ctx : TenantInfo} {db db2 : List Entity} {id : Nat}
    (h : mongoAuditDelete ctx db id = RRes.ok db2) :
    ∃ y u ent2, mongoAuditGetByID ctx db id = RRes.ok y ∧ userIDFor ctx = some u ∧
      mongoAuditUpdate ctx db id
        { y with deleted := some ⟨ctx.actionAt, ctx.userName, u, false⟩ } =
        RRes.ok (ent2, db2) := by
  rw [mongoAuditDelete] at h
  split at h
  · cases h
  · cases h
  · rename_i y heq
    split at h
    · cases h
    · rename_i u heq2
      split at h
      · cases h
      · cases h
      · rename_i ent2 db2' heq3
        injection h with h
        exact ⟨y, u, ent2, heq, heq2, by rw [← h]; exact heq3⟩

/-- C3: a successful Delete on the Mongo audit repository (collection with
unique ids, tenant context empty or well-formed) keeps the collection size
(soft delete via Update, no physical removal), stamps the record's Deleted
audit info with active=false at the context timestamp, makes the record
unreachable through the default GetByID/GetAll/List paths, and keeps it
reachable through GetAllIncludingDeleted. -/
theorem C3_soft_delete (ctx : TenantInfo) (db db2 : List Entity) (id : Nat)
    (hnodup : (db.map Entity.id).Nodup)
    (htenant : ctx.tenantID = "" ∨ (parseUUID ctx.tenantID).isSome)
    (hdel : mongoAuditDelete ctx db id = RRes.ok db2) :
    db2.length = db.length ∧
    (∃ e ∈ db2, e.id = id ∧ ∃ d, e.deleted = some d ∧ d.active = false ∧
      d.setAt = ctx.actionAt) ∧
    mongoAuditGetByID ctx db2 id = RRes.fail (NewNotFoundError "Entity not found") ∧
    (∃ l, mongoAuditGetAll ctx db2 [] = RRes.ok l ∧ ∀ e ∈ l, e.id ≠ id) ∧
    (∃ l, mongoAuditList ctx db2 [] = RRes.ok l ∧ ∀ e ∈ l, e.id ≠ id) ∧
    (∃ l, mongoAuditGetAllIncludingDeleted ctx db2 [] = RRes.ok l ∧
      ∃ e ∈ l, e.id = id) := by
  obtain ⟨y, u, ent2, hget, hu, hupd⟩ := mongoAuditDelete_ok hdel
  obtain ⟨u2, hu2, hent, hrf⟩ := mongoAuditUpdate_ok hupd
  have hfind := mongoAuditGetByID_ok hget
  have hq := List.find?_some hfind
  rw [Bool.and_eq_true, Bool.and_eq_true, beq_iff_eq, Option.isNone_iff_eq_none] at hq
  obtain ⟨⟨hyid, hydel⟩, hytnt⟩ := hq
  obtain ⟨l1, y2, l2, hdb, hdb2, hpy2, hl1⟩ := replaceFirst_spec _ _ _ _ hrf
  have hy2id : y2.id = id := by
    have := hpy2
    rw [Bool.and_eq_true, beq_iff_eq] at this
    exact this.1
  rw [hdb] at hnodup
  have hdist := nodup_split_ids hnodup
  have hentid : ent2.id = id := by rw [hent]; exact hyid
  have hentdel : ent2.deleted = some ⟨ctx.actionAt, ctx.userName, u, false⟩ := by
    rw [hent]
  have henttnt : ent2.tenantID = ctx.tenantID := by rw [hent]
  have hmem2 : ent2 ∈ db2 := by
    rw [hdb2]
    exact List.mem_append_right _ (List.mem_cons_self _ _)
  have hsideids : ∀ z, z ∈ l1 ∨ z ∈ l2 → z.id ≠ id := by
    intro z hz
    rw [← hy2id]
    exact hdist z hz
  have hside_of_mem : ∀ z, z ∈ db2 → z = ent2 ∨ z.id ≠ id := by
    intro z hz
    rw [hdb2] at hz
    rcases List.mem_append.mp hz with hz | hz
    · exact Or.inr (hsideids z (Or.inl hz))
    · rcases List.mem_cons.mp hz with rfl | hz
      · exact Or.inl rfl
      · exact Or.inr (hsideids z (Or.inr hz))
  refine ⟨?_, ?_, ?_, ?_, ?_, ?_⟩
  · rw [hdb2, hdb]
    simp
  · exact ⟨ent2, hmem2, hentid, ⟨ctx.actionAt, ctx.userName, u, false⟩, hentdel, rfl, rfl⟩
  · have hnone : db2.find?
        (fun e => e.id == id && e.deleted.isNone && ctxTenantFilter ctx e) = none := by
      rw [List.find?_eq_none]
      intro x hx
      rcases hside_of_mem x hx with rfl | hxid
      · rw [Bool.and_eq_true, Bool.and_eq_true]
        rintro ⟨⟨-, hdl⟩, -⟩
        rw [hentdel] at hdl
        cases hdl
      · rw [Bool.and_eq_true, Bool.and_eq_true, beq_iff_eq]
        rintro ⟨⟨hxeq, -⟩, -⟩
        exact hxid hxeq
    rw [mongoAuditGetByID, hnone]
  · by_cases hb : ctx.tenantID == ""
    · refine ⟨db2.filter (fun e => docMatches e [("deleted", BVal.bnull)]), ?_, ?_⟩
      · rw [mongoAuditGetAll, if_pos hb]; rfl
      · intro e he
        obtain ⟨hedb, hedm⟩ := List.mem_filter.mp he
        rcases hside_of_mem e hedb with rfl | hxid
        · simp [docMatches, matchOne, hentdel] at hedm
        · exact hxid
    · have hne : ctx.tenantID ≠ "" := by simpa using hb
      rcases htenant with h | h
      · exact absurd h hne
      obtain ⟨t, hpt⟩ := Option.isSome_iff_exists.mp h
      have hbf : (ctx.tenantID == "") = false := by simpa using hb
      refine ⟨db2.filter (fun e =>
        docMatches e [("deleted", BVal.bnull), ("tenant_id", BVal.bbin t)]), ?_, ?_⟩
      · rw [mongoAuditGetAll]
        simp only [hbf, Bool.false_eq_true, if_false]
        rw [hpt]; rfl
      · intro e he
        obtain ⟨hedb, hedm⟩ := List.mem_filter.mp he
        rcases hside_of_mem e hedb with rfl | hxid
        · simp [docMatches, matchOne, hentdel] at hedm
        · exact hxid
  · by_cases hb : ctx.tenantID == ""
    · refine ⟨db2.filter (fun e => docMatches e [("deleted", BVal.bnull)]), ?_, ?_⟩
      · rw [mongoAuditList, mongoAuditGetAll, if_pos hb]; rfl
      · intro e he
        obtain ⟨hedb, hedm⟩ := List.mem_filter.mp he
        rcases hside_of_mem e hedb with rfl | hxid
        · simp [docMatches, matchOne, hentdel] at hedm
        · exact hxid
    · have hne : ctx.tenantID ≠ "" := by simpa using hb
      rcases htenant with h | h
      · exact absurd h hne
      obtain ⟨t, hpt⟩ := Option.isSome_iff_exists.mp h
      have hbf : (ctx.tenantID == "") = false := by simpa using hb
      refine ⟨db2.filter (fun e =>
        docMatches e [("deleted", BVal.bnull), ("tenant_id", BVal.bbin t)]), ?_, ?_⟩
      · rw [mongoAuditList, mongoAuditGetAll]
        simp only [hbf, Bool.false_eq_true, if_false]
        rw [hpt]; rfl
      · intro e he
        obtain ⟨hedb, hedm⟩ := List.mem_filter.mp he
        rcases hside_of_mem e hedb with rfl | hxid
        · simp [docMatches, matchOne, hentdel] at hedm
        · exact hxid
  · by_cases hb : ctx.tenantID == ""
    · refine ⟨db2.filter (fun e => docMatches e []), ?_, ent2, ?_, hentid⟩
      · rw [mongoAuditGetAllIncludingDeleted, if_pos hb]; rfl
      · exact List.mem_filter.mpr ⟨hmem2, rfl⟩
    · have hne : ctx.tenantID ≠ "" := by simpa using hb
      rcases htenant with h | h
      · exact absurd h hne
      obtain ⟨t, hpt⟩ := Option.isSome_iff_exists.mp h
      have hbf : (ctx.tenantID == "") = false := by simpa using hb
      refine ⟨db2.filter (fun e => docMatches e [("tenant_id", BVal.bbin t)]), ?_,
        ent2, ?_, hentid⟩
      · rw [mongoAuditGetAllIncludingDeleted]
        simp only [hbf, Bool.false_eq_true, if_false]
        rw [hpt]; rfl
      · refine List.mem_filter.mpr ⟨hmem2, ?_⟩
        simp [docMatches, matchOne, henttnt, hpt]

/-- C3 witness: a concrete one-record collection; Delete soft-deletes it and
all the read-path conclusions hold. -/
theorem C3_soft_delete_witness :
    ([⟨1, "", "Ana", aud0, ⟨5, "alice", 0, false⟩, some ⟨5, "alice", 0, false⟩,
        true⟩] : List Entity).length = ([ent0] : List Entity).length ∧
    (∃ e ∈ ([⟨1, "", "Ana", aud0, ⟨5, "alice", 0, false⟩, some ⟨5, "alice", 0, false⟩,
        true⟩] : List Entity), e.id = 1 ∧ ∃ d, e.deleted = some d ∧ d.active = false ∧
      d.setAt = ctx0.actionAt) ∧
    mongoAuditGetByID ctx0 [⟨1, "", "Ana", aud0, ⟨5, "alice", 0, false⟩,
        some ⟨5, "alice", 0, false⟩, true⟩] 1 =
      RRes.fail (NewNotFoundError "Entity not found") ∧
    (∃ l, mongoAuditGetAll ctx0 [⟨1, "", "Ana", aud0, ⟨5, "alice", 0, false⟩,
        some ⟨5, "alice", 0, false⟩, true⟩] [] = RRes.ok l ∧ ∀ e ∈ l, e.id ≠ 1) ∧
    (∃ l, mongoAuditList ctx0 [⟨1, "", "Ana", aud0, ⟨5, "alice", 0, false⟩,
        some ⟨5, "alice", 0, false⟩, true⟩] [] = RRes.ok l ∧ ∀ e ∈ l, e.id ≠ 1) ∧
    (∃ l, mongoAuditGetAllIncludingDeleted ctx0 [⟨1, "", "Ana", aud0,
        ⟨5, "alice", 0, false⟩, some ⟨5, "alice", 0, false⟩, true⟩] [] = RRes.ok l ∧
      ∃ e ∈ l, e.id = 1) :=
  C3_soft_delete ctx0 [ent0]
    [⟨1, "", "Ana", aud0, ⟨5, "alice", 0, false⟩, some ⟨5, "alice", 0, false⟩, true⟩]
    1 (by decide) (Or.inl rfl) rfl

end Zendia
